import Mathlib

/-!
Shallow embedding of src/pl0/lexer.c (a PL/0 tokenizer) and proofs about it.

The C scanner walks a null-terminated character buffer through a global
pointer `source_buf` and a global `line` counter.  We embed the buffer as a
fixed `List Char` named `s`, the pointer as a numeric cursor `pos` (reading
at or past `s.length` yields the terminating null `'\x00'`, matching the
null-terminated C buffer), and thread `line` explicitly.  Calls to `die`
(which print a diagnostic and exit with status 1) are embedded as
`Except.error` values carrying the current line and the cause.  Loops whose
C termination argument is "the cursor moves forward and the buffer is
finite" are given an explicit structural bound (the `_k` versions),
instantiated by a wrapper with a bound that provably suffices.
-/

namespace PL0

/-- Reads the buffer at a position: the cell itself inside the buffer, the
terminating null at or past its end (models the null-terminated C buffer). -/
def getc (s : List Char) (pos : Nat) : Char :=
  s.getD pos '\x00'

/-- Embeds C `isdigit` in the default locale. -/
def c_isdigit (c : Char) : Bool := '0' ≤ c && c ≤ '9'

/-- Embeds C `isalpha` in the default locale. -/
def c_isalpha (c : Char) : Bool := ('a' ≤ c && c ≤ 'z') || ('A' ≤ c && c ≤ 'Z')

/-- Embeds C `isalnum` in the default locale. -/
def c_isalnum (c : Char) : Bool := c_isalpha c || c_isdigit c

/-- Embeds C `isspace` in the default locale. -/
def c_isspace (c : Char) : Bool :=
  c == ' ' || c == '\t' || c == '\n' || c == '\x0B' || c == '\x0C' || c == '\r'

/-- Embeds the character test of the identifier loop in `ident` (lexer.c
line 173): isalnum or underscore. -/
def is_ident_char (c : Char) : Bool := c_isalnum c || c == '_'

/-- Embeds the C enum `token_type` (lexer.c lines 31-45). -/
inductive token_type where
  | IDENT | NUMBER
  | CONST | VAR
  | PROCEDURE | CALL
  | BEGIN | END
  | IF | THEN
  | WHILE | DO
  | ODD
  | ASSIGN
  | EQUAL | HASH | LT | GT
  | PLUS | MINUS | MULTIPLY | DIVIDE
  | LPAREN | RPAREN
  | DOT | COMMA | SEMICOLON
  deriving DecidableEq

/-- Embeds the C struct `token` (lexer.c lines 47-50): owned text plus a
kind. -/
structure token where
  value : List Char
  type : token_type
  deriving DecidableEq

/-- Cause reported by `die` for each lexical error in the scanner. -/
inductive lex_msg where
  | unterminated_comment
  | invalid_number
  | unknown_token (c : Char)
  deriving DecidableEq

/-- Embeds a fatal error: `die` prints the current line and a message on
stderr and exits with status 1 (lexer.c lines 58-69).  We record the line
and the cause. -/
structure lex_error where
  line : Nat
  msg : lex_msg
  deriving DecidableEq

/-- Embeds `get_token` (lexer.c lines 149-161): a fresh copy of the
characters in positions [startp, endp) of the buffer. -/
def get_token (s : List Char) (startp endp : Nat) : List Char :=
  (s.drop startp).take (endp - startp)

/-- Embeds the keyword comparison chain of `ident` (lexer.c lines 180-192):
case-sensitive `strcmp` against the eleven reserved words, else `IDENT`. -/
def keyword_type (id : List Char) : token_type :=
  if id = "const".data then .CONST
  else if id = "var".data then .VAR
  else if id = "procedure".data then .PROCEDURE
  else if id = "call".data then .CALL
  else if id = "begin".data then .BEGIN
  else if id = "end".data then .END
  else if id = "if".data then .IF
  else if id = "then".data then .THEN
  else if id = "while".data then .WHILE
  else if id = "do".data then .DO
  else if id = "odd".data then .ODD
  else .IDENT

/-- Embeds `ident` (lexer.c lines 169-195): consume the maximal run of
letters/digits/underscores from `pos`, copy it out, classify it.  The line
counter is untouched. -/
def ident (s : List Char) (pos : Nat) : token × Nat :=
  let endp := pos + ((s.drop pos).takeWhile is_ident_char).length
  (⟨get_token s pos endp, keyword_type (get_token s pos endp)⟩, endp)

/-- Numeric value of a decimal digit string, as strtol in base 10 computes
it on an all-digit input. -/
def digits_val (ds : List Char) : Nat :=
  ds.foldl (fun a c => a * 10 + (c.toNat - '0'.toNat)) 0

/-- LONG_MAX of the LP64 target the tool is built for: `long` is the
target integer type the number literal is range-checked against. -/
def LONG_MAX : Nat := 2 ^ 63 - 1

/-- Embeds `number` (lexer.c lines 197-216): consume the maximal digit run,
copy it out, and validate it with strtol and errno.  On a nonempty
all-digit string, strtol in base 10 leaves errno at 0 exactly when the
value fits in `long`, and sets it to ERANGE (so the code dies with message
"Invalid number") exactly when the value exceeds LONG_MAX. -/
def number (s : List Char) (pos line : Nat) : Except lex_error (token × Nat) :=
  let endp := pos + ((s.drop pos).takeWhile c_isdigit).length
  if digits_val (get_token s pos endp) > LONG_MAX then
    .error ⟨line, .invalid_number⟩
  else
    .ok (⟨get_token s pos endp, .NUMBER⟩, endp)

/-- Embeds the token text built after the single-character switch cases of
`lex` (lexer.c lines 314-315): value[0] receives the character the already
advanced cursor now points at and value[1] receives the null terminator,
so the stored C string is empty when that cell holds the terminating null
and otherwise is the one character found there. -/
def sym_text (s : List Char) (pos : Nat) : List Char :=
  if getc s pos = '\x00' then [] else [getc s pos]

/-- Structural engine of the whitespace loop (lexer.c lines 221-225). -/
def skip_ws_k (s : List Char) : Nat → Nat → Nat → Nat × Nat
  | 0, pos, line => (pos, line)
  | k + 1, pos, line =>
    if c_isspace (getc s pos) then
      skip_ws_k s k (pos + 1) (if getc s pos = '\n' then line + 1 else line)
    else (pos, line)

/-- Embeds the whitespace loop at the head of `lex` (lexer.c lines 221-225):
skip spaces, incrementing the line counter on each newline consumed.  The
loop advances only while inside the buffer (the terminating null is not a
space), so the remaining buffer length bounds its iterations. -/
def skip_ws (s : List Char) (pos line : Nat) : Nat × Nat :=
  skip_ws_k s (s.length - pos) pos line

/-- Structural engine of the comment loop (lexer.c lines 136-147).  The
out-of-bound base case coincides with reading the terminating null, which
dies with message "Unterminated comment". -/
def comment_k (s : List Char) : Nat → Nat → Nat → Except lex_error (Nat × Nat)
  | 0, _, line => .error ⟨line, .unterminated_comment⟩
  | k + 1, pos, line =>
    if getc s pos = '\x7d' then .ok (pos + 1, line)
    else if getc s pos = '\x00' then .error ⟨line, .unterminated_comment⟩
    else comment_k s k (pos + 1) (if getc s pos = '\n' then line + 1 else line)

/-- Embeds `comment` (lexer.c lines 136-147): read and advance until the
character just read is the closing brace, dying at the terminating null
and counting the newlines passed over.  Returns the cursor just past the
closing brace and the updated line. -/
def comment (s : List Char) (pos line : Nat) : Except lex_error (Nat × Nat) :=
  comment_k s (s.length - pos) pos line

/-- Structural engine of `lex` (lexer.c lines 218-318).  The extra bound
counts goto-start iterations (one per skipped comment); each skipped
comment strictly advances the cursor within the buffer, so the buffer
length plus one always suffices. -/
def lex_k (s : List Char) : Nat → Nat → Nat → Except lex_error (token × Nat × Nat)
  | 0, _, line => .error ⟨line, .unterminated_comment⟩
  | k + 1, pos, line =>
    match skip_ws s pos line with
    | (p, l) =>
      if c_isalpha (getc s p) || getc s p == '_' then
        match ident s p with
        | (t, p2) => .ok (t, p2, l)
      else if c_isdigit (getc s p) then
        match number s p l with
        | .ok (t, p2) => .ok (t, p2, l)
        | .error e => .error e
      else
        match getc s p with
        | '=' => .ok (⟨sym_text s (p + 1), .ASSIGN⟩, p + 1, l)
        | '#' => .ok (⟨sym_text s (p + 1), .HASH⟩, p + 1, l)
        | '<' => .ok (⟨sym_text s (p + 1), .LT⟩, p + 1, l)
        | '>' => .ok (⟨sym_text s (p + 1), .GT⟩, p + 1, l)
        | '+' => .ok (⟨sym_text s (p + 1), .PLUS⟩, p + 1, l)
        | '-' => .ok (⟨sym_text s (p + 1), .MINUS⟩, p + 1, l)
        | '*' => .ok (⟨sym_text s (p + 1), .MULTIPLY⟩, p + 1, l)
        | '/' => .ok (⟨sym_text s (p + 1), .DIVIDE⟩, p + 1, l)
        | '(' => .ok (⟨sym_text s (p + 1), .LPAREN⟩, p + 1, l)
        | ')' => .ok (⟨sym_text s (p + 1), .RPAREN⟩, p + 1, l)
        | '.' => .ok (⟨sym_text s (p + 1), .DOT⟩, p + 1, l)
        | ',' => .ok (⟨sym_text s (p + 1), .COMMA⟩, p + 1, l)
        | ';' => .ok (⟨sym_text s (p + 1), .SEMICOLON⟩, p + 1, l)
        | ':' =>
          if getc s (p + 1) = '=' then
            .ok (⟨':' :: '=' :: [], .ASSIGN⟩, p + 2, l)
          else .error ⟨l, .unknown_token (getc s (p + 1))⟩
        | '\x7b' =>
          match comment s p l with
          | .ok (p2, l2) => lex_k s k p2 l2
          | .error e => .error e
        | '\x00' => .ok (⟨sym_text s p, .DOT⟩, p, l)
        | c => .error ⟨l, .unknown_token c⟩

/-- Embeds `lex` (lexer.c lines 218-318): skip whitespace, skip comments
(looping via goto start), then classify and consume one token.  Note that
the C switch maps the single character `=` to `ASSIGN` (lexer.c lines
242-243). -/
def lex (s : List Char) (pos line : Nat) : Except lex_error (token × Nat × Nat) :=
  lex_k s (s.length + 1) pos line

/-- Structural engine of the driver loop (lexer.c lines 322-331). -/
def parse_k (s : List Char) : Nat → Nat → Nat → Except lex_error (List (Nat × token))
  | 0, _, line => .error ⟨line, .unterminated_comment⟩
  | k + 1, pos, line =>
    match lex s pos line with
    | .error e => .error e
    | .ok (t, p2, l2) =>
      if t.type = .DOT then .ok [(l2, t)]
      else
        match parse_k s k p2 l2 with
        | .ok rest => .ok ((l2, t) :: rest)
        | .error e => .error e

/-- Embeds `parse` (lexer.c lines 322-331): call `lex`, print each produced
token with the current line, and stop once a DOT-kind token has been
printed.  The returned list holds, in order, what the driver prints: the
line at the moment of printing paired with the token.  The line counter
starts at 1 (lexer.c line 53) and the cursor at the start of the buffer. -/
def parse (s : List Char) : Except lex_error (List (Nat × token)) :=
  parse_k s (s.length + 1) 0 1

/-- Number of newline characters in buffer positions [pos, endp). -/
def nl_count (s : List Char) (pos endp : Nat) : Nat :=
  (get_token s pos endp).count '\n'

/-- First position at or after `pos` holding the closing brace or the
terminating null (equal to the buffer length when neither occurs): where
the comment loop stops. -/
def comment_stop (s : List Char) (pos : Nat) : Nat :=
  pos + ((s.drop pos).takeWhile (fun c => !(c == '\x7d' || c == '\x00'))).length

/-- Keyword table as the spec states it: the eleven reserved words and the
kinds they map to. -/
def keywords : List (List Char × token_type) :=
  [("const".data, .CONST), ("var".data, .VAR), ("procedure".data, .PROCEDURE),
   ("call".data, .CALL), ("begin".data, .BEGIN), ("end".data, .END),
   ("if".data, .IF), ("then".data, .THEN), ("while".data, .WHILE),
   ("do".data, .DO), ("odd".data, .ODD)]

/-! Utility lemmas about buffer reads and maximal runs. -/

theorem getc_eq_getElem {s : List Char} {pos : Nat} (h : pos < s.length) :
    getc s pos = s[pos] := by
  simp [getc, List.getD_eq_getElem?_getD, List.getElem?_eq_getElem h]

theorem getc_eq_null_of_le {s : List Char} {pos : Nat} (h : s.length ≤ pos) :
    getc s pos = '\x00' := by
  simp [getc, List.getD_eq_getElem?_getD, List.getElem?_eq_none h]

theorem lt_length_of_getc_ne {s : List Char} {pos : Nat} (h : getc s pos ≠ '\x00') :
    pos < s.length := by
  by_contra hc
  exact h (getc_eq_null_of_le (Nat.le_of_not_lt hc))

theorem getD_drop_eq_getc (s : List Char) (pos k : Nat) :
    (s.drop pos).getD k '\x00' = getc s (pos + k) := by
  simp [getc, List.getD_eq_getElem?_getD, List.getElem?_drop]

theorem take_length_takeWhile (p : α → Bool) :
    ∀ l : List α, l.take (l.takeWhile p).length = l.takeWhile p := by
  intro l
  induction l with
  | nil => rfl
  | cons a l ih =>
    by_cases h : p a
    · rw [List.takeWhile_cons_of_pos h]
      simpa [List.take_succ_cons] using ih
    · rw [List.takeWhile_cons_of_neg h]
      rfl

theorem getD_length_takeWhile (p : α → Bool) (d : α) (hd : p d = false) :
    ∀ l : List α, p (l.getD (l.takeWhile p).length d) = false := by
  intro l
  induction l with
  | nil => simpa using hd
  | cons a l ih =>
    by_cases h : p a
    · rw [List.takeWhile_cons_of_pos h]
      simpa using ih
    · rw [List.takeWhile_cons_of_neg h]
      simpa using h

theorem get_token_run (s : List Char) (p : Char → Bool) (pos : Nat) :
    get_token s pos (pos + ((s.drop pos).takeWhile p).length) = (s.drop pos).takeWhile p := by
  unfold get_token
  rw [Nat.add_sub_cancel_left]
  exact take_length_takeWhile p _

theorem run_end_not (s : List Char) (p : Char → Bool) (pos : Nat) (hd : p '\x00' = false) :
    p (getc s (pos + ((s.drop pos).takeWhile p).length)) = false := by
  rw [← getD_drop_eq_getc]
  exact getD_length_takeWhile p _ hd _

theorem run_le_length {s : List Char} (p : Char → Bool) {pos : Nat} (h : pos ≤ s.length) :
    pos + ((s.drop pos).takeWhile p).length ≤ s.length := by
  have h1 : ((s.drop pos).takeWhile p).length ≤ (s.drop pos).length :=
    List.Sublist.length_le (List.takeWhile_sublist p)
  have h2 : (s.drop pos).length = s.length - pos := List.length_drop pos s
  omega

theorem run_pos {s : List Char} {p : Char → Bool} {pos : Nat}
    (h : pos < s.length) (hp : p (getc s pos) = true) :
    0 < ((s.drop pos).takeWhile p).length := by
  rw [List.drop_eq_getElem_cons h, List.takeWhile_cons_of_pos (by rwa [getc_eq_getElem h] at hp)]
  simp

theorem count_takeWhile_zero {p : Char → Bool} (hp : p '\n' = false) (l : List Char) :
    (l.takeWhile p).count '\n' = 0 := by
  rw [List.count_eq_zero]
  intro hmem
  have h := List.mem_takeWhile_imp hmem
  rw [hp] at h
  exact Bool.false_ne_true h

/-! Lemmas about newline counting over buffer spans. -/

theorem nl_count_self (s : List Char) (pos : Nat) : nl_count s pos pos = 0 := by
  simp [nl_count, get_token]

theorem get_token_split (s : List Char) {pos m endp : Nat} (h1 : pos ≤ m) (h2 : m ≤ endp) :
    get_token s pos endp = get_token s pos m ++ get_token s m endp := by
  unfold get_token
  have he : endp - pos = (m - pos) + (endp - m) := by omega
  rw [he, List.take_add, List.drop_drop]
  have hm : pos + (m - pos) = m := by omega
  rw [hm]

theorem nl_count_split (s : List Char) {pos m endp : Nat} (h1 : pos ≤ m) (h2 : m ≤ endp) :
    nl_count s pos endp = nl_count s pos m + nl_count s m endp := by
  unfold nl_count
  rw [get_token_split s h1 h2, List.count_append]

theorem get_token_one (s : List Char) (pos : Nat) :
    get_token s pos (pos + 1) = if pos < s.length then [getc s pos] else [] := by
  unfold get_token
  by_cases h : pos < s.length
  · rw [List.drop_eq_getElem_cons h, if_pos h, Nat.add_sub_cancel_left, getc_eq_getElem h]
    rfl
  · rw [if_neg h, List.drop_eq_nil_iff.mpr (by omega)]
    simp

theorem nl_count_one (s : List Char) (pos : Nat) :
    nl_count s pos (pos + 1) = if getc s pos = '\n' then 1 else 0 := by
  unfold nl_count
  rw [get_token_one]
  by_cases h : pos < s.length
  · rw [if_pos h]
    by_cases hn : getc s pos = '\n'
    · rw [hn, if_pos rfl]
      rfl
    · rw [if_neg hn, List.count_eq_zero]
      simpa using fun hc => hn hc.symm
  · rw [if_neg h, if_neg (by rw [getc_eq_null_of_le (by omega)]; decide)]
    rfl

theorem nl_count_succ_left (s : List Char) {pos endp : Nat} (h : pos < endp) :
    nl_count s pos endp = (if getc s pos = '\n' then 1 else 0) + nl_count s (pos + 1) endp := by
  rw [nl_count_split s (Nat.le_succ pos) h, nl_count_one]

theorem nl_count_run_zero {p : Char → Bool} (hp : p '\n' = false) (s : List Char) (pos : Nat) :
    nl_count s pos (pos + ((s.drop pos).takeWhile p).length) = 0 := by
  unfold nl_count
  rw [get_token_run]
  exact count_takeWhile_zero hp _

/-! Lemmas about the whitespace loop. -/

theorem skip_ws_k_spec (s : List Char) :
    ∀ k pos line, pos ≤ (skip_ws_k s k pos line).1 ∧
      ((skip_ws_k s k pos line).1 ≤ s.length ∨ (skip_ws_k s k pos line).1 = pos) ∧
      (skip_ws_k s k pos line).2 = line + nl_count s pos (skip_ws_k s k pos line).1 := by
  intro k
  induction k with
  | zero =>
    intro pos line
    exact ⟨Nat.le_refl _, Or.inr rfl, by simp [skip_ws_k, nl_count_self]⟩
  | succ k ih =>
    intro pos line
    by_cases hsp : c_isspace (getc s pos) = true
    · have hlt : pos < s.length := lt_length_of_getc_ne (fun h0 => by
        rw [h0] at hsp
        exact absurd hsp (by decide))
      obtain ⟨ih1, ih2, ih3⟩ := ih (pos + 1) (if getc s pos = '\n' then line + 1 else line)
      simp only [skip_ws_k, if_pos hsp]
      refine ⟨by omega, by omega, ?_⟩
      rw [ih3, nl_count_succ_left s (by omega :
        pos < (skip_ws_k s k (pos + 1) (if getc s pos = '\n' then line + 1 else line)).1)]
      split_ifs <;> omega
    · simp only [skip_ws_k, if_neg hsp]
      exact ⟨Nat.le_refl _, Or.inr (by trivial), by simp [nl_count_self]⟩

theorem skip_ws_spec (s : List Char) (pos line : Nat) :
    pos ≤ (skip_ws s pos line).1 ∧
      ((skip_ws s pos line).1 ≤ s.length ∨ (skip_ws s pos line).1 = pos) ∧
      (skip_ws s pos line).2 = line + nl_count s pos (skip_ws s pos line).1 :=
  skip_ws_k_spec s (s.length - pos) pos line

/-! Lemmas about the comment loop. -/

theorem comment_stop_stay {s : List Char} {pos : Nat}
    (h : getc s pos = '\x7d' ∨ getc s pos = '\x00') : comment_stop s pos = pos := by
  unfold comment_stop
  by_cases hlt : pos < s.length
  · rw [List.drop_eq_getElem_cons hlt, List.takeWhile_cons_of_neg]
    · simp
    · rcases h with h | h <;> rw [getc_eq_getElem hlt] at h <;> simp [h]
  · rw [List.drop_eq_nil_iff.mpr (by omega)]
    simp

theorem comment_stop_succ {s : List Char} {pos : Nat}
    (h7 : getc s pos ≠ '\x7d') (h0 : getc s pos ≠ '\x00') :
    comment_stop s pos = comment_stop s (pos + 1) := by
  have hlt : pos < s.length := lt_length_of_getc_ne h0
  rw [getc_eq_getElem hlt] at h7 h0
  unfold comment_stop
  rw [List.drop_eq_getElem_cons hlt, List.takeWhile_cons_of_pos (by simp [h7, h0])]
  simp
  omega

theorem comment_stop_ge (s : List Char) (pos : Nat) : pos ≤ comment_stop s pos :=
  Nat.le_add_right _ _

theorem comment_k_spec (s : List Char) :
    ∀ k pos line, s.length ≤ pos + k →
      comment_k s k pos line =
        if getc s (comment_stop s pos) = '\x7d' then
          .ok (comment_stop s pos + 1, line + nl_count s pos (comment_stop s pos))
        else
          .error ⟨line + nl_count s pos (comment_stop s pos), .unterminated_comment⟩ := by
  intro k
  induction k with
  | zero =>
    intro pos line h
    have h0 : getc s pos = '\x00' := getc_eq_null_of_le (by omega)
    rw [comment_stop_stay (Or.inr h0), if_neg (by rw [h0]; decide)]
    simp [comment_k, nl_count_self]
  | succ k ih =>
    intro pos line h
    by_cases h7 : getc s pos = '\x7d'
    · rw [comment_stop_stay (Or.inl h7), if_pos h7]
      simp [comment_k, h7, nl_count_self]
    · by_cases h0 : getc s pos = '\x00'
      · rw [comment_stop_stay (Or.inr h0), if_neg (by rw [h0]; decide)]
        simp [comment_k, h7, h0, nl_count_self]
      · have hstep : comment_stop s pos = comment_stop s (pos + 1) := comment_stop_succ h7 h0
        have hrec := ih (pos + 1) (if getc s pos = '\n' then line + 1 else line) (by omega)
        have hline : (if getc s pos = '\n' then line + 1 else line) +
            nl_count s (pos + 1) (comment_stop s (pos + 1)) =
            line + nl_count s pos (comment_stop s (pos + 1)) := by
          rw [nl_count_succ_left s (by
            have := comment_stop_ge s (pos + 1)
            omega : pos < comment_stop s (pos + 1))]
          split_ifs <;> omega
        simp only [comment_k, if_neg h7, if_neg h0]
        rw [hrec, hstep, hline]

theorem comment_spec (s : List Char) (pos line : Nat) :
    comment s pos line =
      if getc s (comment_stop s pos) = '\x7d' then
        .ok (comment_stop s pos + 1, line + nl_count s pos (comment_stop s pos))
      else
        .error ⟨line + nl_count s pos (comment_stop s pos), .unterminated_comment⟩ :=
  comment_k_spec s (s.length - pos) pos line (by omega)

theorem comment_ok {s : List Char} {pos line p2 l2 : Nat}
    (h : comment s pos line = .ok (p2, l2)) :
    p2 = comment_stop s pos + 1 ∧ pos < p2 ∧ p2 ≤ s.length ∧
      l2 = line + nl_count s pos p2 ∧ (getc s pos ≠ '\x7d' → pos + 2 ≤ p2) := by
  rw [comment_spec] at h
  by_cases hc : getc s (comment_stop s pos) = '\x7d'
  · rw [if_pos hc] at h
    have hp2 : p2 = comment_stop s pos + 1 := by
      cases h
      rfl
    have hl2 : l2 = line + nl_count s pos (comment_stop s pos) := by
      cases h
      rfl
    have hlt : comment_stop s pos < s.length := lt_length_of_getc_ne (by rw [hc]; decide)
    have hge := comment_stop_ge s pos
    refine ⟨hp2, by omega, by omega, ?_, ?_⟩
    · rw [hl2, hp2, nl_count_split s (comment_stop_ge s pos) (Nat.le_succ _), nl_count_one,
        if_neg (by rw [hc]; decide)]
      omega
    · intro h7
      have : comment_stop s pos ≠ pos := fun he => h7 (he ▸ hc)
      omega
  · rw [if_neg hc] at h
    exact absurd h (by simp)

/-! Character class facts. -/

theorem char_le_iff_toNat {a b : Char} : a ≤ b ↔ a.toNat ≤ b.toNat := Iff.rfl

theorem not_alpha_of_digit {c : Char} (h : c_isdigit c = true) :
    (c_isalpha c || c == '_') = false := by
  simp only [c_isdigit, Bool.and_eq_true, decide_eq_true_eq] at h
  obtain ⟨h1, h2⟩ := h
  rw [char_le_iff_toNat, show ('0').toNat = 48 from rfl] at h1
  rw [char_le_iff_toNat, show ('9').toNat = 57 from rfl] at h2
  have hne : (c == '_') = false := by
    refine beq_eq_false_iff_ne.mpr fun he => ?_
    rw [he, show ('_').toNat = 95 from rfl] at h2
    omega
  have hna : c_isalpha c = false := by
    rcases hb : c_isalpha c
    · rfl
    · exfalso
      simp only [c_isalpha, Bool.or_eq_true, Bool.and_eq_true, decide_eq_true_eq] at hb
      rcases hb with ⟨ha1, _⟩ | ⟨ha1, _⟩
      · rw [char_le_iff_toNat, show ('a').toNat = 97 from rfl] at ha1
        omega
      · rw [char_le_iff_toNat, show ('A').toNat = 65 from rfl] at ha1
        omega
  rw [hna, hne]
  rfl

/-! A convenient restatement of the whitespace-loop facts. -/

theorem skip_ws_eq_spec {s : List Char} {pos line p l : Nat}
    (h : skip_ws s pos line = (p, l)) :
    pos ≤ p ∧ (p ≤ s.length ∨ p = pos) ∧ l = line + nl_count s pos p := by
  have hs := skip_ws_spec s pos line
  rw [h] at hs
  exact hs

/-- Facts about consuming one single non-newline character at position p. -/
theorem after_one_char {s : List Char} {pos p line l : Nat}
    (hw1 : pos ≤ p) (hw3 : l = line + nl_count s pos p)
    (hlt : p < s.length) (hnn : getc s p ≠ '\n') :
    pos < p + 1 ∧ p + 1 ≤ s.length ∧ l = line + nl_count s pos (p + 1) := by
  have hnl : nl_count s p (p + 1) = 0 := by rw [nl_count_one, if_neg hnn]
  have hsp : nl_count s pos (p + 1) = nl_count s pos p := by
    rw [nl_count_split s hw1 (Nat.le_succ p), hnl]
    omega
  exact ⟨by omega, by omega, by rw [hsp, hw3]⟩

/-- Everything the rest of the development needs about one successful call
to the scanner: the cursor does not move backwards, stays inside the
buffer, the line counter advances by exactly the newlines consumed, and
any token other than the DOT kind strictly advances the cursor within the
buffer. -/
theorem lex_k_spec (s : List Char) :
    ∀ k pos line t p2 l2, lex_k s k pos line = .ok (t, p2, l2) →
      pos ≤ p2 ∧ (pos ≤ s.length → p2 ≤ s.length) ∧
      l2 = line + nl_count s pos p2 ∧
      (t.type ≠ .DOT → pos < p2 ∧ p2 ≤ s.length) := by
  intro k
  induction k with
  | zero =>
    intro pos line t p2 l2 h
    simp [lex_k] at h
  | succ k ih =>
    intro pos line t p2 l2 h
    rcases hws : skip_ws s pos line with ⟨p, l⟩
    obtain ⟨hw1, hw2, hw3⟩ := skip_ws_eq_spec hws
    simp only [lex_k, hws] at h
    by_cases hab : (c_isalpha (getc s p) || getc s p == '_') = true
    · rw [if_pos hab] at h
      have hne : getc s p ≠ '\x00' := fun h0 => by
        rw [h0] at hab
        exact absurd hab (by decide)
      have hlt : p < s.length := lt_length_of_getc_ne hne
      have hab2 : c_isalpha (getc s p) = true ∨ (getc s p == '_') = true := by
        simpa using hab
      have hic : is_ident_char (getc s p) = true := by
        rcases hab2 with hx | hx <;> simp [is_ident_char, c_isalnum, hx]
      simp only [ident] at h
      cases h
      have hrun : 0 < ((s.drop p).takeWhile is_ident_char).length := run_pos hlt hic
      have hle : p + ((s.drop p).takeWhile is_ident_char).length ≤ s.length :=
        run_le_length is_ident_char (by omega)
      have hnl : nl_count s p (p + ((s.drop p).takeWhile is_ident_char).length) = 0 :=
        nl_count_run_zero (by decide) s p
      refine ⟨by omega, fun _ => by omega, ?_, fun _ => ⟨by omega, by omega⟩⟩
      rw [nl_count_split s hw1 (by omega), hnl, hw3]
      omega
    · rw [if_neg hab] at h
      by_cases hd : c_isdigit (getc s p) = true
      · rw [if_pos hd] at h
        have hne : getc s p ≠ '\x00' := fun h0 => by
          rw [h0] at hd
          exact absurd hd (by decide)
        have hlt : p < s.length := lt_length_of_getc_ne hne
        simp only [number] at h
        by_cases hov : digits_val (get_token s p
            (p + ((s.drop p).takeWhile c_isdigit).length)) > LONG_MAX
        · rw [if_pos hov] at h
          exact absurd h (by simp)
        · rw [if_neg hov] at h
          simp only [] at h
          cases h
          have hrun : 0 < ((s.drop p).takeWhile c_isdigit).length := run_pos hlt hd
          have hle : p + ((s.drop p).takeWhile c_isdigit).length ≤ s.length :=
            run_le_length c_isdigit (by omega)
          have hnl : nl_count s p (p + ((s.drop p).takeWhile c_isdigit).length) = 0 :=
            nl_count_run_zero (by decide) s p
          refine ⟨by omega, fun _ => by omega, ?_, fun _ => ⟨by omega, by omega⟩⟩
          rw [nl_count_split s hw1 (by omega), hnl, hw3]
          omega
      · rw [if_neg hd] at h
        split at h
        case _ heq =>
          cases h
          obtain ⟨a, b, c⟩ := after_one_char hw1 hw3
            (lt_length_of_getc_ne (by rw [heq]; decide)) (by rw [heq]; decide)
          exact ⟨by omega, fun _ => by omega, c, fun _ => ⟨a, b⟩⟩
        case _ heq =>
          cases h
          obtain ⟨a, b, c⟩ := after_one_char hw1 hw3
            (lt_length_of_getc_ne (by rw [heq]; decide)) (by rw [heq]; decide)
          exact ⟨by omega, fun _ => by omega, c, fun _ => ⟨a, b⟩⟩
        case _ heq =>
          cases h
          obtain ⟨a, b, c⟩ := after_one_char hw1 hw3
            (lt_length_of_getc_ne (by rw [heq]; decide)) (by rw [heq]; decide)
          exact ⟨by omega, fun _ => by omega, c, fun _ => ⟨a, b⟩⟩
        case _ heq =>
          cases h
          obtain ⟨a, b, c⟩ := after_one_char hw1 hw3
            (lt_length_of_getc_ne (by rw [heq]; decide)) (by rw [heq]; decide)
          exact ⟨by omega, fun _ => by omega, c, fun _ => ⟨a, b⟩⟩
        case _ heq =>
          cases h
          obtain ⟨a, b, c⟩ := after_one_char hw1 hw3
            (lt_length_of_getc_ne (by rw [heq]; decide)) (by rw [heq]; decide)
          exact ⟨by omega, fun _ => by omega, c, fun _ => ⟨a, b⟩⟩
        case _ heq =>
          cases h
          obtain ⟨a, b, c⟩ := after_one_char hw1 hw3
            (lt_length_of_getc_ne (by rw [heq]; decide)) (by rw [heq]; decide)
          exact ⟨by omega, fun _ => by omega, c, fun _ => ⟨a, b⟩⟩
        case _ heq =>
          cases h
          obtain ⟨a, b, c⟩ := after_one_char hw1 hw3
            (lt_length_of_getc_ne (by rw [heq]; decide)) (by rw [heq]; decide)
          exact ⟨by omega, fun _ => by omega, c, fun _ => ⟨a, b⟩⟩
        case _ heq =>
          cases h
          obtain ⟨a, b, c⟩ := after_one_char hw1 hw3
            (lt_length_of_getc_ne (by rw [heq]; decide)) (by rw [heq]; decide)
          exact ⟨by omega, fun _ => by omega, c, fun _ => ⟨a, b⟩⟩
        case _ heq =>
          cases h
          obtain ⟨a, b, c⟩ := after_one_char hw1 hw3
            (lt_length_of_getc_ne (by rw [heq]; decide)) (by rw [heq]; decide)
          exact ⟨by omega, fun _ => by omega, c, fun _ => ⟨a, b⟩⟩
        case _ heq =>
          cases h
          obtain ⟨a, b, c⟩ := after_one_char hw1 hw3
            (lt_length_of_getc_ne (by rw [heq]; decide)) (by rw [heq]; decide)
          exact ⟨by omega, fun _ => by omega, c, fun _ => ⟨a, b⟩⟩
        case _ heq =>
          cases h
          obtain ⟨a, b, c⟩ := after_one_char hw1 hw3
            (lt_length_of_getc_ne (by rw [heq]; decide)) (by rw [heq]; decide)
          exact ⟨by omega, fun _ => by omega, c, fun _ => ⟨a, b⟩⟩
        case _ heq =>
          cases h
          obtain ⟨a, b, c⟩ := after_one_char hw1 hw3
            (lt_length_of_getc_ne (by rw [heq]; decide)) (by rw [heq]; decide)
          exact ⟨by omega, fun _ => by omega, c, fun _ => ⟨a, b⟩⟩
        case _ heq =>
          cases h
          obtain ⟨a, b, c⟩ := after_one_char hw1 hw3
            (lt_length_of_getc_ne (by rw [heq]; decide)) (by rw [heq]; decide)
          exact ⟨by omega, fun _ => by omega, c, fun _ => ⟨a, b⟩⟩
        case _ heq =>
          -- colon branch
          split_ifs at h with he
          cases h
          have hlt1 : p < s.length := lt_length_of_getc_ne (by rw [heq]; decide)
          have hlt2 : p + 1 < s.length := lt_length_of_getc_ne (by rw [he]; decide)
          have hn1 : nl_count s p (p + 1) = 0 := by
            rw [nl_count_one, if_neg (by rw [heq]; decide)]
          have hn2 : nl_count s (p + 1) (p + 2) = 0 := by
            have := nl_count_one s (p + 1)
            rw [if_neg (by rw [he]; decide)] at this
            simpa using this
          have hnl : nl_count s pos (p + 2) = nl_count s pos p := by
            rw [nl_count_split s hw1 (by omega), nl_count_split s (by omega : p ≤ p + 1)
              (by omega : p + 1 ≤ p + 2), hn1, hn2]
            omega
          refine ⟨by omega, fun _ => by omega, by rw [hnl, hw3], fun _ => ⟨by omega, by omega⟩⟩
        case _ heq =>
          -- comment branch
          rcases hcm : comment s p l with e | ⟨pc, lc⟩
          · rw [hcm] at h
            exact absurd h (by simp)
          · rw [hcm] at h
            simp only [] at h
            obtain ⟨_, hpc1, hpc2, hlc, _⟩ := comment_ok hcm
            obtain ⟨ia, ib, ic, _⟩ := ih pc lc t p2 l2 h
            have hb2 : p2 ≤ s.length := ib (by omega)
            refine ⟨by omega, fun _ => by omega, ?_, fun _ => ⟨by omega, by omega⟩⟩
            rw [ic, hlc, hw3,
              nl_count_split s hw1 (by omega : p ≤ p2),
              nl_count_split s (by omega : p ≤ pc) (by omega : pc ≤ p2)]
            omega
        case _ heq =>
          -- end of input: synthetic DOT token, cursor unmoved
          cases h
          refine ⟨hw1, fun hp => by omega, hw3, fun hd => absurd rfl hd⟩
        case _ c hne1 hne2 hne3 hne4 hne5 hne6 hne7 hne8 hne9 hne10 hne11
            hne12 hne13 hne14 hne15 hne16 =>
          exact absurd h (by simp)

/-- The structural bound of `lex_k` is irrelevant once it exceeds the
remaining buffer length: each goto-start iteration skips a comment of at
least two characters inside the buffer. -/
theorem lex_k_fuel (s : List Char) :
    ∀ k k2 pos line, s.length - pos < k → s.length - pos < k2 →
      lex_k s k pos line = lex_k s k2 pos line := by
  intro k
  induction k with
  | zero =>
    intro k2 pos line h _
    omega
  | succ k ih =>
    intro k2 pos line h h2
    cases k2 with
    | zero => omega
    | succ k2 =>
      rcases hws : skip_ws s pos line with ⟨p, l⟩
      obtain ⟨hw1, hw2, hw3⟩ := skip_ws_eq_spec hws
      simp only [lex_k, hws]
      by_cases hab : (c_isalpha (getc s p) || getc s p == '_') = true
      · rw [if_pos hab, if_pos hab]
      · rw [if_neg hab, if_neg hab]
        by_cases hd : c_isdigit (getc s p) = true
        · rw [if_pos hd, if_pos hd]
        · rw [if_neg hd, if_neg hd]
          split <;> try rfl
          rename_i heq
          rcases hcm : comment s p l with e | ⟨pc, lc⟩
          · rfl
          · show lex_k s k pc lc = lex_k s k2 pc lc
            obtain ⟨_, hpc1, hpc2, _, hpc3⟩ := comment_ok hcm
            have hltp : p < s.length := lt_length_of_getc_ne (by rw [heq]; decide)
            have h2p : p + 2 ≤ pc := hpc3 (by rw [heq]; decide)
            exact ih k2 pc lc (by omega) (by omega)

/-- The cursor/line facts of `lex_k_spec`, at the wrapper `lex`. -/
theorem lex_spec {s : List Char} {pos line : Nat} {t : token} {p2 l2 : Nat}
    (h : lex s pos line = .ok (t, p2, l2)) :
    pos ≤ p2 ∧ (pos ≤ s.length → p2 ≤ s.length) ∧
      l2 = line + nl_count s pos p2 ∧
      (t.type ≠ .DOT → pos < p2 ∧ p2 ≤ s.length) :=
  lex_k_spec s (s.length + 1) pos line t p2 l2 h

/-! One-step dispatch lemmas for `lex`, one per branch a claim talks about. -/

theorem lex_eq_of_null {s : List Char} {pos line p l : Nat}
    (hws : skip_ws s pos line = (p, l)) (hc : getc s p = '\x00') :
    lex s pos line = .ok (⟨[], .DOT⟩, p, l) := by
  show lex_k s (s.length + 1) pos line = _
  simp only [lex_k, hws, hc]
  simp only [sym_text, hc, if_pos]
  rw [if_neg (by decide), if_neg (by decide)]

theorem lex_eq_of_colon_assign {s : List Char} {pos line p l : Nat}
    (hws : skip_ws s pos line = (p, l)) (hc : getc s p = ':')
    (he : getc s (p + 1) = '=') :
    lex s pos line = .ok (⟨':' :: '=' :: [], .ASSIGN⟩, p + 2, l) := by
  show lex_k s (s.length + 1) pos line = _
  simp only [lex_k, hws, hc, he]
  rfl

theorem lex_eq_of_colon_err {s : List Char} {pos line p l : Nat}
    (hws : skip_ws s pos line = (p, l)) (hc : getc s p = ':')
    (he : getc s (p + 1) ≠ '=') :
    lex s pos line = .error ⟨l, .unknown_token (getc s (p + 1))⟩ := by
  show lex_k s (s.length + 1) pos line = _
  simp only [lex_k, hws, hc]
  rw [if_neg he, if_neg (by decide), if_neg (by decide)]

theorem lex_eq_of_digit {s : List Char} {pos line p l : Nat}
    (hws : skip_ws s pos line = (p, l)) (hd : c_isdigit (getc s p) = true) :
    lex s pos line =
      if digits_val ((s.drop p).takeWhile c_isdigit) > LONG_MAX then
        .error ⟨l, .invalid_number⟩
      else
        .ok (⟨(s.drop p).takeWhile c_isdigit, .NUMBER⟩,
          p + ((s.drop p).takeWhile c_isdigit).length, l) := by
  show lex_k s (s.length + 1) pos line = _
  simp only [lex_k, hws]
  rw [if_neg (by simp [not_alpha_of_digit hd]), if_pos hd]
  simp only [number, get_token_run]
  by_cases hov : digits_val ((s.drop p).takeWhile c_isdigit) > LONG_MAX
  · rw [if_pos hov, if_pos hov]
  · rw [if_neg hov, if_neg hov]

theorem lex_eq_of_alpha {s : List Char} {pos line p l : Nat}
    (hws : skip_ws s pos line = (p, l))
    (hab : (c_isalpha (getc s p) || getc s p == '_') = true) :
    lex s pos line = .ok (⟨(s.drop p).takeWhile is_ident_char,
      keyword_type ((s.drop p).takeWhile is_ident_char)⟩,
      p + ((s.drop p).takeWhile is_ident_char).length, l) := by
  show lex_k s (s.length + 1) pos line = _
  simp only [lex_k, hws]
  rw [if_pos hab]
  simp only [ident, get_token_run]

theorem lex_eq_of_comment_err {s : List Char} {pos line p l : Nat} {e : lex_error}
    (hws : skip_ws s pos line = (p, l)) (hc : getc s p = '\x7b')
    (hcm : comment s p l = .error e) :
    lex s pos line = .error e := by
  show lex_k s (s.length + 1) pos line = _
  simp only [lex_k, hws, hc, hcm]
  rw [if_neg (by decide), if_neg (by decide)]

theorem lex_eq_of_comment_ok {s : List Char} {pos line p l pc lc : Nat}
    (hws : skip_ws s pos line = (p, l)) (hc : getc s p = '\x7b')
    (hcm : comment s p l = .ok (pc, lc)) :
    lex s pos line = lex s pc lc := by
  obtain ⟨_, hpc1, hpc2, _, hpc3⟩ := comment_ok hcm
  have hltp : p < s.length := lt_length_of_getc_ne (by rw [hc]; decide)
  have h2p : p + 2 ≤ pc := hpc3 (by rw [hc]; decide)
  have h1 : lex s pos line = lex_k s s.length pc lc := by
    show lex_k s (s.length + 1) pos line = _
    simp only [lex_k, hws, hc, hcm]
    rw [if_neg (by decide), if_neg (by decide)]
  rw [h1]
  show lex_k s s.length pc lc = lex_k s (s.length + 1) pc lc
  exact lex_k_fuel s s.length (s.length + 1) pc lc (by omega) (by omega)

/-! Lemmas about the driver loop. -/

theorem parse_k_shape (s : List Char) :
    ∀ k pos line out, parse_k s k pos line = .ok out →
      ∃ pre last, out = pre ++ [last] ∧ last.2.type = .DOT ∧
        ∀ x ∈ pre, x.2.type ≠ .DOT := by
  intro k
  induction k with
  | zero =>
    intro pos line out h
    simp [parse_k] at h
  | succ k ih =>
    intro pos line out h
    rcases hlx : lex s pos line with e | ⟨t, p2, l2⟩
    · simp [parse_k, hlx] at h
    · simp only [parse_k, hlx] at h
      by_cases hdot : t.type = .DOT
      · rw [if_pos hdot] at h
        cases h
        exact ⟨[], (l2, t), by simp, hdot, by simp⟩
      · rw [if_neg hdot] at h
        rcases hrec : parse_k s k p2 l2 with e | rest
        · rw [hrec] at h
          exact absurd h (by simp)
        · rw [hrec] at h
          simp only [] at h
          cases h
          obtain ⟨pre, last, rfl, hlast, hpre⟩ := ih p2 l2 rest hrec
          refine ⟨(l2, t) :: pre, last, by simp, hlast, ?_⟩
          intro x hx
          rcases List.mem_cons.mp hx with rfl | hx
          · exact hdot
          · exact hpre x hx

theorem parse_k_chain (s : List Char) :
    ∀ k pos line out, parse_k s k pos line = .ok out →
      List.Chain' (fun a b => a ≤ b) (line :: out.map Prod.fst) := by
  intro k
  induction k with
  | zero =>
    intro pos line out h
    simp [parse_k] at h
  | succ k ih =>
    intro pos line out h
    rcases hlx : lex s pos line with e | ⟨t, p2, l2⟩
    · simp [parse_k, hlx] at h
    · simp only [parse_k, hlx] at h
      have hline : line ≤ l2 := by
        have := (lex_spec hlx).2.2.1
        omega
      by_cases hdot : t.type = .DOT
      · rw [if_pos hdot] at h
        cases h
        simp [hline]
      · rw [if_neg hdot] at h
        rcases hrec : parse_k s k p2 l2 with e | rest
        · rw [hrec] at h
          exact absurd h (by simp)
        · rw [hrec] at h
          simp only [] at h
          cases h
          have hch := ih p2 l2 rest hrec
          simp only [List.map_cons]
          rw [List.chain'_cons]
          exact ⟨hline, hch⟩

/-! Claim theorems. -/

/-- C1 (code bug): the claim says every token text is the exact substring
of source that produced it, and scanning "123." yields Number "123" then
Dot with text ".".  The code instead assigns value[0] from the cursor
after it has already been advanced past the consumed character, so on
"123." the Dot token is emitted with the empty text, not ".". -/
theorem c1_token_text_code_bug :
    parse ("123.".data) = .ok [(1, ⟨"123".data, .NUMBER⟩), (1, ⟨[], .DOT⟩)] ∧
    (⟨[], .DOT⟩ : token).value ≠ ".".data :=
  ⟨rfl, by decide⟩

/-- C2 (code bug): the claim says `=` maps to its own Equal kind, distinct
from the kind of `:=`.  The code maps the single character `=` to ASSIGN,
the same kind `:=` produces, and the EQUAL enumerator is never emitted. -/
theorem c2_equal_token_code_bug :
    lex ("=".data) 0 1 = .ok (⟨[], .ASSIGN⟩, 1, 1) ∧
    lex (":=".data) 0 1 = .ok (⟨':' :: '=' :: [], .ASSIGN⟩, 2, 1) ∧
    token_type.ASSIGN ≠ token_type.EQUAL :=
  ⟨rfl, rfl, by decide⟩

/-- C3: when the cursor (after whitespace skipping) reaches the
terminating null, the scanner produces the synthetic Dot-kind token
without advancing, and any token sequence the driver delivers ends with
exactly one Dot-kind token, with no token after it and none before it of
that kind. -/
theorem c3_end_of_input_dot :
    (∀ (s : List Char) (pos line p l : Nat), skip_ws s pos line = (p, l) →
      getc s p = '\x00' → lex s pos line = .ok (⟨[], .DOT⟩, p, l)) ∧
    (∀ (s : List Char) (out : List (Nat × token)), parse s = .ok out →
      ∃ pre last, out = pre ++ [last] ∧ last.2.type = .DOT ∧
        ∀ x ∈ pre, x.2.type ≠ .DOT) :=
  ⟨fun _ _ _ _ _ hws hc => lex_eq_of_null hws hc,
   fun s out h => parse_k_shape s (s.length + 1) 0 1 out h⟩

/-- Witness for C3 at concrete inputs: the empty buffer and "x". -/
theorem c3_end_of_input_dot_witness :
    lex [] 0 1 = .ok (⟨[], .DOT⟩, 0, 1) ∧
    (∃ pre last,
      ([(1, ⟨'x' :: [], .IDENT⟩), (1, ⟨[], .DOT⟩)] : List (Nat × token)) = pre ++ [last] ∧
      last.2.type = .DOT ∧ ∀ x ∈ pre, x.2.type ≠ .DOT) :=
  ⟨c3_end_of_input_dot.1 [] 0 1 0 1 rfl rfl,
   c3_end_of_input_dot.2 ("x".data) _ rfl⟩

/-- C4: a comment consumes characters up to the first following closing
brace (non-nesting, producing no token: the scanner transparently resumes
after it), increments the line counter once per newline inside the span,
and reaching end of input before the closing brace is the fatal
unterminated-comment error. -/
theorem c4_comment_skipping :
    (∀ (s : List Char) (pos line : Nat),
      comment s pos line =
        if getc s (comment_stop s pos) = '\x7d' then
          .ok (comment_stop s pos + 1, line + nl_count s pos (comment_stop s pos))
        else
          .error ⟨line + nl_count s pos (comment_stop s pos), .unterminated_comment⟩) ∧
    (∀ (s : List Char) (pos line p l : Nat), skip_ws s pos line = (p, l) →
      getc s p = '\x7b' →
      (∀ e, comment s p l = .error e → lex s pos line = .error e) ∧
      (∀ p2 l2, comment s p l = .ok (p2, l2) → lex s pos line = lex s p2 l2)) ∧
    parse ("\x7bunterminated".data) = .error ⟨1, .unterminated_comment⟩ :=
  ⟨fun s pos line => comment_spec s pos line,
   fun _ _ _ _ _ hws hc =>
     ⟨fun _ hcm => lex_eq_of_comment_err hws hc hcm,
      fun _ _ hcm => lex_eq_of_comment_ok hws hc hcm⟩,
   rfl⟩

/-- Witness for C4 at concrete inputs: an empty comment followed by a dot,
and an unterminated comment. -/
theorem c4_comment_skipping_witness :
    lex ("\x7b\x7d.".data) 0 1 = lex ("\x7b\x7d.".data) 2 1 ∧
    lex ("\x7bx".data) 0 1 = .error ⟨1, .unterminated_comment⟩ :=
  ⟨(c4_comment_skipping.2.1 ("\x7b\x7d.".data) 0 1 0 1 rfl rfl).2 2 1 rfl,
   (c4_comment_skipping.2.1 ("\x7bx".data) 0 1 0 1 rfl rfl).1
     ⟨1, .unterminated_comment⟩ rfl⟩

/-- C5: after a colon the scan succeeds exactly when the immediately
following character is an equals sign, producing the two-character Assign
token with text ":="; any other character is the fatal unknown-token error
at the current line, producing no token; in particular ":x" is a fatal
error at line 1 with nothing emitted. -/
theorem c5_colon_rule :
    (∀ (s : List Char) (pos line p l : Nat), skip_ws s pos line = (p, l) →
      getc s p = ':' →
      (getc s (p + 1) = '=' →
        lex s pos line = .ok (⟨':' :: '=' :: [], .ASSIGN⟩, p + 2, l)) ∧
      (getc s (p + 1) ≠ '=' →
        lex s pos line = .error ⟨l, .unknown_token (getc s (p + 1))⟩)) ∧
    parse (":x".data) = .error ⟨1, .unknown_token 'x'⟩ :=
  ⟨fun _ _ _ _ _ hws hc =>
    ⟨fun he => lex_eq_of_colon_assign hws hc he,
     fun he => lex_eq_of_colon_err hws hc he⟩,
   rfl⟩

/-- Witness for C5 at concrete inputs ":=" and ":x". -/
theorem c5_colon_rule_witness :
    lex (":=".data) 0 1 = .ok (⟨':' :: '=' :: [], .ASSIGN⟩, 2, 1) ∧
    lex (":x".data) 0 1 = .error ⟨1, .unknown_token 'x'⟩ :=
  ⟨(c5_colon_rule.1 (":=".data) 0 1 0 1 rfl rfl).1 rfl,
   (c5_colon_rule.1 (":x".data) 0 1 0 1 rfl rfl).2 (by decide)⟩

/-- C6: scanning at a digit consumes the maximal run of digits (every
character of the consumed run is a digit and the next character is not),
fails with the fatal invalid-number error exactly when the run's value is
not representable in the target integer type, and otherwise emits a
Number token whose text is the digit run; "99999999999999999999" is a
fatal error. -/
theorem c6_number_rule :
    (∀ (s : List Char) (pos line p l : Nat), skip_ws s pos line = (p, l) →
      c_isdigit (getc s p) = true →
      (∀ c ∈ (s.drop p).takeWhile c_isdigit, c_isdigit c = true) ∧
      c_isdigit (getc s (p + ((s.drop p).takeWhile c_isdigit).length)) = false ∧
      (digits_val ((s.drop p).takeWhile c_isdigit) ≤ LONG_MAX →
        lex s pos line = .ok (⟨(s.drop p).takeWhile c_isdigit, .NUMBER⟩,
          p + ((s.drop p).takeWhile c_isdigit).length, l)) ∧
      (LONG_MAX < digits_val ((s.drop p).takeWhile c_isdigit) →
        lex s pos line = .error ⟨l, .invalid_number⟩)) ∧
    lex ("99999999999999999999".data) 0 1 = .error ⟨1, .invalid_number⟩ := by
  constructor
  · intro s pos line p l hws hd
    refine ⟨fun c hc => List.mem_takeWhile_imp hc,
      run_end_not s c_isdigit p (by decide), ?_, ?_⟩
    · intro hle
      rw [lex_eq_of_digit hws hd, if_neg (by omega)]
    · intro hgt
      rw [lex_eq_of_digit hws hd, if_pos (by omega)]
  · rfl

/-- Witness for C6 at concrete inputs "12x" and the overflowing literal. -/
theorem c6_number_rule_witness :
    lex ("12x".data) 0 1 = .ok (⟨'1' :: '2' :: [], .NUMBER⟩, 2, 1) ∧
    lex ("99999999999999999999".data) 0 1 = .error ⟨1, .invalid_number⟩ :=
  ⟨(c6_number_rule.1 ("12x".data) 0 1 0 1 rfl rfl).2.2.1 (by decide),
   (c6_number_rule.1 ("99999999999999999999".data) 0 1 0 1 rfl rfl).2.2.2 (by decide)⟩

set_option maxHeartbeats 1000000 in
/-- C7: a maximal letter/digit/underscore run starting with a letter or
underscore is classified by exact case-sensitive comparison against the
eleven keywords, every keyword maps to its keyword kind, any other word
gives Identifier; "if" is the If keyword while "ifx" and "IF" are
Identifiers. -/
theorem c7_keyword_rule :
    (∀ (s : List Char) (pos line p l : Nat), skip_ws s pos line = (p, l) →
      (c_isalpha (getc s p) || getc s p == '_') = true →
      lex s pos line = .ok (⟨(s.drop p).takeWhile is_ident_char,
        keyword_type ((s.drop p).takeWhile is_ident_char)⟩,
        p + ((s.drop p).takeWhile is_ident_char).length, l)) ∧
    (∀ w k, (w, k) ∈ keywords → keyword_type w = k) ∧
    (∀ w, (∀ q ∈ keywords, w ≠ q.1) → keyword_type w = .IDENT) ∧
    keyword_type ("if".data) = .IF ∧ keyword_type ("ifx".data) = .IDENT ∧
    keyword_type ("IF".data) = .IDENT := by
  refine ⟨fun _ _ _ _ _ hws hab => lex_eq_of_alpha hws hab, ?_, ?_, rfl, rfl, rfl⟩
  · intro w k hmem
    simp only [keywords, List.mem_cons, List.not_mem_nil, or_false] at hmem
    rcases hmem with h|h|h|h|h|h|h|h|h|h|h <;> (cases h; rfl)
  · intro w hw
    unfold keyword_type
    split_ifs with h1 h2 h3 h4 h5 h6 h7 h8 h9 h10 h11
    · exact absurd h1 (hw ("const".data, .CONST) (by simp [keywords]))
    · exact absurd h2 (hw ("var".data, .VAR) (by simp [keywords]))
    · exact absurd h3 (hw ("procedure".data, .PROCEDURE) (by simp [keywords]))
    · exact absurd h4 (hw ("call".data, .CALL) (by simp [keywords]))
    · exact absurd h5 (hw ("begin".data, .BEGIN) (by simp [keywords]))
    · exact absurd h6 (hw ("end".data, .END) (by simp [keywords]))
    · exact absurd h7 (hw ("if".data, .IF) (by simp [keywords]))
    · exact absurd h8 (hw ("then".data, .THEN) (by simp [keywords]))
    · exact absurd h9 (hw ("while".data, .WHILE) (by simp [keywords]))
    · exact absurd h10 (hw ("do".data, .DO) (by simp [keywords]))
    · exact absurd h11 (hw ("odd".data, .ODD) (by simp [keywords]))
    · rfl

/-- Witness for C7 at concrete inputs "if" and the keyword "var". -/
theorem c7_keyword_rule_witness :
    lex ("if".data) 0 1 = .ok (⟨'i' :: 'f' :: [], .IF⟩, 2, 1) ∧
    keyword_type ("var".data) = .VAR :=
  ⟨c7_keyword_rule.1 ("if".data) 0 1 0 1 rfl rfl,
   c7_keyword_rule.2.1 ("var".data) .VAR (by simp [keywords])⟩

/-- C8: the line counter starts at 1, each successful scan advances it by
exactly the number of newline characters consumed (so it never
decreases), and the lines attached to the successive printed tokens are
monotonically non-decreasing. -/
theorem c8_line_monotone :
    (∀ (s : List Char) (pos line : Nat) (t : token) (p2 l2 : Nat),
      lex s pos line = .ok (t, p2, l2) →
      line ≤ l2 ∧ l2 = line + nl_count s pos p2) ∧
    (∀ (s : List Char) (out : List (Nat × token)), parse s = .ok out →
      List.Chain' (fun a b => a ≤ b) (1 :: out.map Prod.fst)) := by
  constructor
  · intro s pos line t p2 l2 h
    have hl := (lex_spec h).2.2.1
    exact ⟨by omega, hl⟩
  · intro s out h
    exact parse_k_chain s (s.length + 1) 0 1 out h

/-- Witness for C8 at concrete inputs: a newline before a number, and the
token sequence of "1.". -/
theorem c8_line_monotone_witness :
    (1 ≤ 2 ∧ 2 = 1 + nl_count ("\n1.".data) 0 2) ∧
    List.Chain' (fun a b => a ≤ b)
      (1 :: ([(1, ⟨'1' :: [], .NUMBER⟩), (1, ⟨[], .DOT⟩)] :
        List (Nat × token)).map Prod.fst) :=
  ⟨c8_line_monotone.1 ("\n1.".data) 0 1 ⟨'1' :: [], .NUMBER⟩ 2 2 rfl,
   c8_line_monotone.2 ("1.".data) _ rfl⟩

/-- C9: a successful call to the scanner leaves the cursor at or after
where it was and never past the terminating null of the buffer (the
embedding passes the buffer as an immutable value, so the scanner cannot
write to it; calls that fail terminate the process instead of
returning). -/
theorem c9_cursor_bounds :
    ∀ (s : List Char) (pos line : Nat) (t : token) (p2 l2 : Nat),
      pos ≤ s.length → lex s pos line = .ok (t, p2, l2) →
      pos ≤ p2 ∧ p2 ≤ s.length := by
  intro s pos line t p2 l2 hle h
  obtain ⟨h1, h2, _, _⟩ := lex_spec h
  exact ⟨h1, h2 hle⟩

/-- Witness for C9 at the concrete input "a". -/
theorem c9_cursor_bounds_witness :
    (0 ≤ ("a".data : List Char).length) ∧ 0 ≤ 1 ∧ 1 ≤ ("a".data : List Char).length :=
  ⟨by decide,
   (c9_cursor_bounds ("a".data) 0 1 ⟨'a' :: [], .IDENT⟩ 1 1 (by decide) rfl).1,
   (c9_cursor_bounds ("a".data) 0 1 ⟨'a' :: [], .IDENT⟩ 1 1 (by decide) rfl).2⟩

/-- C10 (code bug): the claim says that once the first Dot-kind token is
produced the driver stops, and source characters after that dot are never
scanned or printed.  The driver does stop (here only two tokens come out
of "1.X"), but the character immediately after the dot is read and printed
as the Dot token's text, because value[0] is assigned from the cursor
after it has been advanced past the dot. -/
theorem c10_stop_after_dot_code_bug :
    parse ("1.X".data) = .ok [(1, ⟨'1' :: [], .NUMBER⟩), (1, ⟨'X' :: [], .DOT⟩)] := rfl
example : lex ("99999999999999999999".data) 0 1 = .error ⟨1, .invalid_number⟩ := rfl
example : parse ("x := 5;".data) =
    .ok [(1, ⟨"x".data, .IDENT⟩), (1, ⟨':' :: '=' :: [], .ASSIGN⟩),
         (1, ⟨"5".data, .NUMBER⟩), (1, ⟨[], .SEMICOLON⟩), (1, ⟨[], .DOT⟩)] := rfl
example : parse ("\x7b comment\nspans lines \x7d abc".data) =
    .ok [(2, ⟨"abc".data, .IDENT⟩), (2, ⟨[], .DOT⟩)] := rfl
example : lex ("if".data) 0 1 = .ok (⟨"if".data, .IF⟩, 2, 1) := rfl
example : lex ("ifx".data) 0 1 = .ok (⟨"ifx".data, .IDENT⟩, 3, 1) := rfl
example : lex ("IF".data) 0 1 = .ok (⟨"IF".data, .IDENT⟩, 2, 1) := rfl

end PL0
